import Mathlib

/-!
Verification of the trident diagram editor frontend (TypeScript sources).

The development shallowly embeds the parts of the code the properties below
talk about:

* `src/types/arrows.ts` — the arrow registry cache and its accessors.  The
  registry cell (`let arrowRegistry: ArrowEntry[] | null`) is modelled as an
  `Option (List ArrowEntry)` argument, and functions that can `throw` return
  `Except String _` with the thrown message in the `error` case.
* `src/syntax.ts` — the Monarch tokenizer's arrow-token table and the
  operator rule's regular expression (a leftmost-first alternation of string
  literals).
* `src/utils/geometry.ts` — `headStyleToMarker`, `getEdgeMarkers` and the
  rectangle branch of `getEdgePoint`.  Numbers are embedded as `ℚ`.
* `src/hooks/useDiagramDrag.ts` — the drag state machine: `startNodeDrag`,
  `startGroupDrag`, both revisions of `updateLayout`, the mouse-move handler
  and the pointer-move throttle.  Calls into the WASM core
  (`update_class_pos`, `update_group_pos`, `update_class_geometry`,
  `insert_implicit_node`, `compile_diagram`) are opaque and are modelled as
  an explicit record of function parameters (`CoreFns`); the hook state
  additionally records call logs so that "which call was made with which
  arguments" is observable.
-/

namespace Trident

/-! ## Arrow registry (`src/types/arrows.ts`) -/

/-- Line style for arrow rendering (`type LineStyle = "solid" | "dashed"`). -/
inductive LineStyle where
  | solid
  | dashed
  deriving DecidableEq

/-- Head/marker style (`type HeadStyle = "none" | "arrow" | "triangle" |
"diamond_filled" | "diamond_empty"`). -/
inductive HeadStyle where
  | none
  | arrow
  | triangle
  | diamond_filled
  | diamond_empty
  deriving DecidableEq

/-- Direction of an arrow (`type ArrowDirection = "right" | "left" | "none"`). -/
inductive ArrowDirection where
  | right
  | left
  | none
  deriving DecidableEq

/-- Complete arrow entry (`interface ArrowEntry` in `src/types/arrows.ts`). -/
structure ArrowEntry where
  token : String
  canonical_name : String
  name : String
  label : String
  detail : String
  line_style : LineStyle
  head_style : HeadStyle
  tail_style : HeadStyle
  direction : ArrowDirection
  is_left : Bool
  deriving DecidableEq

/-- The cached registry cell `let arrowRegistry: ArrowEntry[] | null = null`:
`none` is the uninitialized (`null`) state. -/
abbrev ArrowRegistryCell := Option (List ArrowEntry)

/-- `initArrowRegistry` stores the parsed entry list into the cell. -/
def initArrowRegistry (parsed : List ArrowEntry) : ArrowRegistryCell :=
  some parsed

/-- `getArrowRegistry`: throws when the cell is still `null`, otherwise
returns the cached list. -/
def getArrowRegistry (cell : ArrowRegistryCell) : Except String (List ArrowEntry) :=
  match cell with
  | Option.none =>
      Except.error "Arrow registry not initialized. Call initArrowRegistry first."
  | Option.some r => Except.ok r

/-- `getArrowByName`: `getArrowRegistry().find(e => e.canonical_name === canonicalName)`. -/
def getArrowByName (cell : ArrowRegistryCell) (canonicalName : String) :
    Except String (Option ArrowEntry) :=
  (getArrowRegistry cell).map (fun r => r.find? (fun e => e.canonical_name == canonicalName))

/-- `getArrowByToken`: `getArrowRegistry().find(e => e.token === token)`. -/
def getArrowByToken (cell : ArrowRegistryCell) (token : String) :
    Except String (Option ArrowEntry) :=
  (getArrowRegistry cell).map (fun r => r.find? (fun e => e.token == token))

/-- `getArrowTokens`: `getArrowRegistry().map(e => e.token)`. -/
def getArrowTokens (cell : ArrowRegistryCell) : Except String (List String) :=
  (getArrowRegistry cell).map (fun r => r.map (fun e => e.token))

/-- `isDashed`: `arrow?.line_style === "dashed"` (a missing entry compares
unequal, hence `false`). -/
def isDashed (cell : ArrowRegistryCell) (canonicalName : String) : Except String Bool :=
  (getArrowByName cell canonicalName).map (fun a =>
    match a with
    | Option.some e => e.line_style == LineStyle.dashed
    | Option.none => false)

/-- `isLeftArrow`: `arrow?.is_left ?? false`. -/
def isLeftArrow (cell : ArrowRegistryCell) (canonicalName : String) : Except String Bool :=
  (getArrowByName cell canonicalName).map (fun a =>
    match a with
    | Option.some e => e.is_left
    | Option.none => false)

/-- `getBaseArrowName`: `arrow?.name ?? canonicalName`. -/
def getBaseArrowName (cell : ArrowRegistryCell) (canonicalName : String) :
    Except String String :=
  (getArrowByName cell canonicalName).map (fun a =>
    match a with
    | Option.some e => e.name
    | Option.none => canonicalName)

/-- Boolean success test for `Except` results (`ok` means no throw). -/
def exceptOk {α : Type} (x : Except String α) : Bool :=
  match x with
  | Except.ok _ => true
  | Except.error _ => false

/-- An arrow entry carrying only a token, used to build concrete registries. -/
def tokenEntry (tok : String) : ArrowEntry :=
  { token := tok, canonical_name := "", name := "", label := "", detail := "",
    line_style := LineStyle.solid, head_style := HeadStyle.none,
    tail_style := HeadStyle.none, direction := ArrowDirection.none,
    is_left := false }

/-! ## Monarch tokenizer (`src/syntax.ts`) -/

/-- The `arrows` attribute of the Monarch tokenizer: the arrow token table,
listed longest first (lines 65–76 of `src/syntax.ts`). -/
def arrows : List String :=
  ["<|--", "--|>", "..>", "<..", "---", "-->", "<--", "o--", "*--", ".."]

/-- The literal alternatives of the operator rule's regular expression on
line 98 of `src/syntax.ts`, in source order.  Every alternative of that
regular expression is a plain string literal, so the rule is exactly a
leftmost-first literal match.  Note the fifth alternative spells four
dashes. -/
def operatorAlternatives : List String :=
  ["<|--", "--|>", "..>", "<..", "----", "-->", "<--", "o--", "*--", ".."]

/-- The operator rule applied at the current position: the first alternative
(in source order) that is a prefix of the remaining input, if any.  This is
the semantics of a sticky-anchored alternation of literals. -/
def matchOperatorRule (s : String) : Option String :=
  operatorAlternatives.find? (fun a => a.toList.isPrefixOf s.toList)

/-! ## Edge markers (`src/utils/geometry.ts`, first revision) -/

/-- The JSON spelling of a head style, as it appears in `ArrowEntry.head_style`. -/
def headStyleStr (h : HeadStyle) : String :=
  match h with
  | HeadStyle.none => "none"
  | HeadStyle.arrow => "arrow"
  | HeadStyle.triangle => "triangle"
  | HeadStyle.diamond_filled => "diamond_filled"
  | HeadStyle.diamond_empty => "diamond_empty"

/-- `headStyleToMarker` (lines 420–435): map a head style string to an SVG
marker reference. -/
def headStyleToMarker (headStyle : String) : String :=
  if headStyle = "arrow" then "url(#arrowhead)"
  else if headStyle = "rounded_arrow" then "url(#rounded-arrowhead)"
  else if headStyle = "triangle" then "url(#triangle)"
  else if headStyle = "diamond_filled" then "url(#diamond)"
  else if headStyle = "diamond_empty" then "url(#diamond-empty)"
  else ""

/-- The body of `getEdgeMarkers` (lines 437–475) after the registry lookup
succeeded, returning the pair `(markerStart, markerEnd)`. -/
def getEdgeMarkersEntry (entry : ArrowEntry) : String × String :=
  let isLeft := entry.is_left
  let isDiamond := entry.head_style == HeadStyle.diamond_filled
      || entry.head_style == HeadStyle.diamond_empty
  if isDiamond then
    if isLeft then ("", headStyleToMarker (headStyleStr entry.head_style))
    else (headStyleToMarker (headStyleStr entry.head_style), "")
  else
    if isLeft then (headStyleToMarker (headStyleStr entry.head_style), "")
    else ("", headStyleToMarker (headStyleStr entry.head_style))

/-- `getEdgeMarkers`: look the arrow up by canonical name; an unknown arrow
falls back to empty markers. -/
def getEdgeMarkers (cell : ArrowRegistryCell) (arrow : String) :
    Except String (String × String) :=
  (getArrowByName cell arrow).map (fun e =>
    match e with
    | Option.none => ("", "")
    | Option.some entry => getEdgeMarkersEntry entry)

/-! ## Edge geometry (`src/utils/geometry.ts`, `getEdgePoint`) -/

/-- `interface Bounds` from `src/types/diagram.ts`; numbers are embedded as `ℚ`. -/
structure Bounds where
  x : ℚ
  y : ℚ
  w : ℚ
  h : ℚ
  deriving DecidableEq

/-- `Math.min` folded into the `let t = Infinity` accumulator: `none` plays
the role of `Infinity`, so the first taken branch just stores its value. -/
def minOpt (t : Option ℚ) (v : ℚ) : Option ℚ :=
  match t with
  | Option.none => some v
  | Option.some u => some (min u v)

/-- Lines 100–113 of `getEdgePoint` (rectangle branch): the parameter `t` of
the boundary intersection, starting from `Infinity` and taking the minimum
over the edges selected by the sign of `dx`/`dy`. -/
def rectT (halfW halfH dx dy : ℚ) : Option ℚ :=
  let tRight := halfW / |dx|
  let tLeft := halfW / |dx|
  let tBottom := halfH / |dy|
  let tTop := halfH / |dy|
  let t : Option ℚ := Option.none
  let t := if 0 < dx then minOpt t tRight else t
  let t := if dx < 0 then minOpt t tLeft else t
  let t := if 0 < dy then minOpt t tBottom else t
  let t := if dy < 0 then minOpt t tTop else t
  t

/-- `getEdgePoint` (lines 60–135) specialised to `shape = "rectangle"` and
`offset = 0`: the guard `if (offset !== 0)` makes the offset block a no-op,
and the rectangle branch is the `else` arm of the shape dispatch.  The
`Option.none` arm of the final match is unreachable: `rectT` returns `none`
only when `dx = 0 ∧ dy = 0`, which already returned the center. -/
def getEdgePointRect (bounds : Bounds) (targetX targetY : ℚ) : ℚ × ℚ :=
  let cx := bounds.x + bounds.w / 2
  let cy := bounds.y + bounds.h / 2
  let dx := targetX - cx
  let dy := targetY - cy
  if dx = 0 ∧ dy = 0 then (cx, cy)
  else
    match rectT (bounds.w / 2) (bounds.h / 2) dx dy with
    | Option.none => (cx, cy)
    | Option.some t => (cx + dx * t, cy + dy * t)

/-! ## Drag hook (`src/hooks/useDiagramDrag.ts`)

The file holds two revisions of the hook.  The first revision routes node
moves and resizes through `update_class_geometry` (its `updateLayout` is
embedded as `updateLayoutGeo`, its `startNodeDrag` as `startNodeDragGeo`);
the second routes node moves through `update_class_pos` (embedded as
`updateLayout` / `startNodeDrag`).  The trailing commit block
(`if (newCode !== sourceCode) { ... }`) is textually identical in both
revisions and is embedded once as `commit`. -/

/-- The discriminant of `DragState.type`. -/
inductive DragType where
  | node
  | group
  | resize
  deriving DecidableEq

/-- `interface DragState` from `src/types/diagram.ts` together with the
extra properties the first revision attaches through casts (`startW`,
`startH`, `initialX`, `initialY`, `newX`, `newY`, `newW`, `newH`); absent
properties are `none`. -/
structure DragState where
  type : DragType
  id : String
  groupIndex : Option ℕ
  startX : ℚ
  startY : ℚ
  startMouseX : ℚ
  startMouseY : ℚ
  parentOffsetX : ℚ
  parentOffsetY : ℚ
  currentX : ℚ
  currentY : ℚ
  startW : Option ℚ
  startH : Option ℚ
  initialX : Option ℚ
  initialY : Option ℚ
  newX : Option ℚ
  newY : Option ℚ
  newW : Option ℚ
  newH : Option ℚ
  deriving DecidableEq

/-- The fields of `interface DiagramNode` the drag hook reads. -/
structure DiagramNode where
  id : String
  bounds : Bounds
  parent_offset : ℚ × ℚ
  explicit : Bool
  deriving DecidableEq

/-- The fields of `interface DiagramGroup` the drag hook reads. -/
structure DiagramGroup where
  id : String
  bounds : Bounds
  deriving DecidableEq

/-- The WASM core entry points the hook calls, kept opaque: any functions of
these shapes. -/
structure CoreFns where
  update_class_pos : String → String → ℚ → ℚ → String
  update_group_pos : String → String → ℕ → ℚ → ℚ → String
  update_class_geometry : String → String → ℤ → ℤ → ℤ → ℤ → String
  insert_implicit_node : String → String → ℚ → ℚ → String
  compile_diagram : String → String

/-- One recorded `update_class_geometry` call: the source string and the four
integer arguments. -/
structure GeoCall where
  source : String
  id : String
  x : ℤ
  y : ℤ
  w : ℤ
  h : ℤ
  deriving DecidableEq

/-- The hook's mutable surroundings: `codeRef` (host code state, fed by
`onCodeChange`), `dragCodeRef`, `pendingCodeRef`, the Monaco buffer
(`silentSetValue` target), `dragResult`, `hasUpdatedRef` and
`lastUpdateRef`, plus call logs making the calls to the core observable:
`compiles` (arguments of `compile_diagram` calls), `emitted` (arguments of
`onCodeChange` calls), `mutLog` (source and coordinates of
`update_class_pos`/`update_group_pos` calls of the second revision),
`geoLog` (`update_class_geometry` calls of the first revision) and
`insertLog` (`insert_implicit_node` calls). -/
structure HookState where
  code : String
  dragCode : Option String
  pendingCode : Option String
  editorContent : String
  dragResult : Option String
  hasUpdated : Bool
  lastUpdate : Option (ℚ × ℚ)
  compiles : List String
  emitted : List String
  mutLog : List (String × ℚ × ℚ)
  geoLog : List GeoCall
  insertLog : List (String × String × ℚ × ℚ)
  deriving DecidableEq

/-- `dragCodeRef.current ?? codeRef.current`: the source string the drag
loop mutates. -/
def sourceOf (s : HookState) : String :=
  s.dragCode.getD s.code

/-- The commit block shared by both revisions of `updateLayout`
(lines 245–259 and 529–548): nothing happens when the mutation returned the
source unchanged; otherwise the drag buffer is advanced and either the host
state is updated (final update) or, when an editor is attached, the Monaco
buffer is silently rewritten; in both of those cases the new code is
recompiled into `dragResult`. -/
def commit (core : CoreFns) (isFinal hasEditor : Bool) (sourceCode newCode : String)
    (s : HookState) : HookState :=
  if newCode ≠ sourceCode then
    let s := { s with hasUpdated := true, dragCode := some newCode }
    if isFinal then
      { s with dragResult := some (core.compile_diagram newCode),
               compiles := s.compiles ++ [newCode],
               pendingCode := some newCode,
               code := newCode,
               emitted := s.emitted ++ [newCode] }
    else if hasEditor then
      { s with editorContent := newCode,
               dragResult := some (core.compile_diagram newCode),
               compiles := s.compiles ++ [newCode] }
    else s
  else s

/-- `updateLayout` of the first revision (lines 151–260).  Node moves pass
the rounded local position together with the rounded `startW ?? 0` and
`startH ?? 0` to `update_class_geometry`; resizes pass the
`newX ?? initialX` geometry; groups go through `update_group_pos`.  The
`getD 0` fallbacks on the resize path are unreachable because
`startNodeResize` populates `initialX`/`initialY`/`startW`/`startH`. -/
def updateLayoutGeo (core : CoreFns) (currentDrag : DragState) (isFinal hasEditor : Bool)
    (s : HookState) : HookState :=
  let sourceCode := sourceOf s
  if currentDrag.type = DragType.node then
    let newLocalX := currentDrag.currentX - currentDrag.parentOffsetX
    let newLocalY := currentDrag.currentY - currentDrag.parentOffsetY
    let w := currentDrag.startW.getD 0
    let h := currentDrag.startH.getD 0
    let newLocalXInt := round newLocalX
    let newLocalYInt := round newLocalY
    let newCode := core.update_class_geometry sourceCode currentDrag.id
        newLocalXInt newLocalYInt (round w) (round h)
    let s := { s with geoLog := s.geoLog ++
        [⟨sourceCode, currentDrag.id, newLocalXInt, newLocalYInt, round w, round h⟩] }
    commit core isFinal hasEditor sourceCode newCode s
  else if currentDrag.type = DragType.resize then
    let newX := (currentDrag.newX.orElse (fun _ => currentDrag.initialX)).getD 0
    let newY := (currentDrag.newY.orElse (fun _ => currentDrag.initialY)).getD 0
    let newW := (currentDrag.newW.orElse (fun _ => currentDrag.startW)).getD 0
    let newH := (currentDrag.newH.orElse (fun _ => currentDrag.startH)).getD 0
    let localX := newX - currentDrag.parentOffsetX
    let localY := newY - currentDrag.parentOffsetY
    let newCode := core.update_class_geometry sourceCode currentDrag.id
        (round localX) (round localY) (round newW) (round newH)
    let s := { s with geoLog := s.geoLog ++
        [⟨sourceCode, currentDrag.id, round localX, round localY, round newW, round newH⟩] }
    commit core isFinal hasEditor sourceCode newCode s
  else
    let newLocalX := currentDrag.currentX - currentDrag.parentOffsetX
    let newLocalY := currentDrag.currentY - currentDrag.parentOffsetY
    let newCode := core.update_group_pos sourceCode currentDrag.id
        (currentDrag.groupIndex.getD 0) newLocalX newLocalY
    let s := { s with mutLog := s.mutLog ++ [(sourceCode, newLocalX, newLocalY)] }
    commit core isFinal hasEditor sourceCode newCode s

/-- `updateLayout` of the second revision (lines 509–549): skip when the
local position equals the last committed one, otherwise call
`update_class_pos` (nodes) or `update_group_pos` (groups) and commit. -/
def updateLayout (core : CoreFns) (currentDrag : DragState) (isFinal hasEditor : Bool)
    (s : HookState) : HookState :=
  let newLocalX := currentDrag.currentX - currentDrag.parentOffsetX
  let newLocalY := currentDrag.currentY - currentDrag.parentOffsetY
  if s.lastUpdate = some (newLocalX, newLocalY) then s
  else
    let s := { s with lastUpdate := some (newLocalX, newLocalY) }
    let sourceCode := sourceOf s
    let newCode :=
      if currentDrag.type = DragType.node then
        core.update_class_pos sourceCode currentDrag.id newLocalX newLocalY
      else
        core.update_group_pos sourceCode currentDrag.id
          (currentDrag.groupIndex.getD 0) newLocalX newLocalY
    let s := { s with mutLog := s.mutLog ++ [(sourceCode, newLocalX, newLocalY)] }
    commit core isFinal hasEditor sourceCode newCode s

/-- `startNodeDrag` of the first revision (lines 48–84): when the node is
implicit, first materialize a declaration through `insert_implicit_node` at
the node's local position, then seed `dragCodeRef` and build the drag state
(recording the node's start bounds in `startW`/`startH`). -/
def startNodeDragGeo (core : CoreFns) (node : DiagramNode) (mouseX mouseY : ℚ)
    (s : HookState) : HookState × DragState :=
  let s := { s with hasUpdated := false }
  let sourceCode0 := s.pendingCode.getD s.code
  let step :=
    if node.explicit then (sourceCode0, s)
    else
      let localX := node.bounds.x - node.parent_offset.1
      let localY := node.bounds.y - node.parent_offset.2
      (core.insert_implicit_node sourceCode0 node.id localX localY,
       { s with insertLog := s.insertLog ++ [(sourceCode0, node.id, localX, localY)] })
  let sourceCode := step.1
  let s := { step.2 with dragCode := some sourceCode }
  (s, { type := DragType.node, id := node.id, groupIndex := Option.none,
        startX := node.bounds.x, startY := node.bounds.y,
        startMouseX := mouseX, startMouseY := mouseY,
        parentOffsetX := node.parent_offset.1, parentOffsetY := node.parent_offset.2,
        currentX := node.bounds.x, currentY := node.bounds.y,
        startW := some node.bounds.w, startH := some node.bounds.h,
        initialX := Option.none, initialY := Option.none,
        newX := Option.none, newY := Option.none,
        newW := Option.none, newH := Option.none })

/-- `startGroupDrag` (identical in both revisions): root groups get a parent
offset of `(0, 0)`. -/
def startGroupDrag (_core : CoreFns) (group : DiagramGroup) (index : ℕ)
    (mouseX mouseY : ℚ) (s : HookState) : HookState × DragState :=
  let s := { s with hasUpdated := false }
  let s := { s with dragCode := some (s.pendingCode.getD s.code) }
  (s, { type := DragType.group, id := group.id, groupIndex := some index,
        startX := group.bounds.x, startY := group.bounds.y,
        startMouseX := mouseX, startMouseY := mouseY,
        parentOffsetX := 0, parentOffsetY := 0,
        currentX := group.bounds.x, currentY := group.bounds.y,
        startW := Option.none, startH := Option.none,
        initialX := Option.none, initialY := Option.none,
        newX := Option.none, newY := Option.none,
        newW := Option.none, newH := Option.none })

/-- The move branch of `handleMouseMove` (identical in both revisions):
scale-correct the mouse delta and round the new absolute position into
`currentX`/`currentY`.  JavaScript's `Math.round` is `⌊x + 1/2⌋`, which is
Mathlib's `round` on `ℚ`. -/
def moveDragState (d : DragState) (clientX clientY scale : ℚ) : DragState :=
  let deltaX := (clientX - d.startMouseX) / scale
  let deltaY := (clientY - d.startMouseY) / scale
  { d with currentX := ((round (d.startX + deltaX) : ℤ) : ℚ),
           currentY := ((round (d.startY + deltaY) : ℤ) : ℚ) }

/-- Iterate the first revision's drag loop: apply `updateLayoutGeo` for each
queued `(dragState, isFinal)` pair in order. -/
def applyUpdatesGeo (core : CoreFns) (hasEditor : Bool) (s : HookState)
    (us : List (DragState × Bool)) : HookState :=
  us.foldl (fun s u => updateLayoutGeo core u.1 u.2 hasEditor s) s

/-- Strings reachable from the materialized source `m` by core mutation
calls: the possible contents of `dragCodeRef` during a drag that started
from `m`. -/
inductive Derived (core : CoreFns) (m : String) : String → Prop where
  | base : Derived core m m
  | geo : ∀ c id x y w h, Derived core m c →
      Derived core m (core.update_class_geometry c id x y w h)
  | classPos : ∀ c id x y, Derived core m c →
      Derived core m (core.update_class_pos c id x y)
  | groupPos : ∀ c id i x y, Derived core m c →
      Derived core m (core.update_group_pos c id i x y)

/-! ## Pointer-move throttle (lines 6 and 343–375)

`handleMouseMove` performs a throttled layout update only when
`Date.now() - lastLayoutUpdateRef.current >= DRAG_THROTTLE_MS`, storing the
new timestamp; `handleMouseUp` performs exactly one final update and resets
the throttle clock.  The state machine below records the timestamps of the
throttled updates and counts the final updates. -/

/-- `const DRAG_THROTTLE_MS = 10`. -/
def DRAG_THROTTLE_MS : ℤ := 10

/-- Observable throttle state of one drag effect. -/
structure ThrottleState where
  lastLayoutUpdate : ℤ
  throttledUpdates : List ℤ
  finalUpdates : ℕ
  dragging : Bool
  deriving DecidableEq

/-- The throttle state when the drag effect attaches: `lastLayoutUpdateRef`
is `0` and no update has run. -/
def initThrottle : ThrottleState :=
  { lastLayoutUpdate := 0, throttledUpdates := [], finalUpdates := 0, dragging := true }

/-- A pointer event delivered to the document listeners: a mouse move at a
`Date.now()` timestamp, or the mouse release. -/
inductive PointerEv where
  | move (now : ℤ)
  | up
  deriving DecidableEq

/-- One listener invocation.  After `handleMouseUp` the drag state is `null`
and the listeners are removed, so later events are inert. -/
def stepPointer (s : ThrottleState) (e : PointerEv) : ThrottleState :=
  match e with
  | PointerEv.move now =>
      if s.dragging then
        if DRAG_THROTTLE_MS ≤ now - s.lastLayoutUpdate then
          { s with lastLayoutUpdate := now,
                   throttledUpdates := s.throttledUpdates ++ [now] }
        else s
      else s
  | PointerEv.up =>
      if s.dragging then
        { s with finalUpdates := s.finalUpdates + 1, dragging := false,
                 lastLayoutUpdate := 0 }
      else s

/-! ## Verification helpers and concrete fixtures -/

/-- Apply a list of mouse moves `(clientX, clientY, scale)` to a drag state. -/
def dragAfterMoves (d : DragState) (moves : List (ℚ × ℚ × ℚ)) : DragState :=
  moves.foldl (fun d m => moveDragState d m.1 m.2.1 m.2.2) d

/-- Drag-loop invariant tying a hook state to the materialized source `m`:
the string the loop would mutate next is derived from `m`, and every
recorded `update_class_geometry` call either predates the drag (`base`) or
was given a source derived from `m`. -/
def GeoInv (core : CoreFns) (m : String) (base : List GeoCall) (s : HookState) : Prop :=
  Derived core m (sourceOf s) ∧ ∀ c ∈ s.geoLog, c ∈ base ∨ Derived core m c.source

/-- Throttle invariant while the mouse is down: no final update yet, the
recorded update times are spaced by at least the throttle interval, and the
last recorded time is the stored clock. -/
def ThrottleInv (s : ThrottleState) : Prop :=
  s.dragging = true ∧ s.finalUpdates = 0 ∧
    List.Chain' (fun a b => DRAG_THROTTLE_MS ≤ b - a) s.throttledUpdates ∧
    ∀ u ∈ s.throttledUpdates.getLast?, u = s.lastLayoutUpdate

/-- The registry contents matching the canonical arrow token table. -/
def canonicalRegistry : List ArrowEntry :=
  arrows.map tokenEntry

/-- Concrete core functions whose outputs are all distinct from their source
argument. -/
def wCore : CoreFns :=
  { update_class_pos := fun src _ _ _ => src ++ "|pos",
    update_group_pos := fun src _ _ _ _ => src ++ "|group",
    update_class_geometry := fun src _ _ _ _ _ => src ++ "|geom",
    insert_implicit_node := fun src _ _ _ => src ++ "|ins",
    compile_diagram := fun src => src ++ "|out" }

/-- Concrete core functions whose mutation entry points return the source
unchanged (the unknown-id no-op behaviour). -/
def wCoreId : CoreFns :=
  { update_class_pos := fun src _ _ _ => src,
    update_group_pos := fun src _ _ _ _ => src,
    update_class_geometry := fun src _ _ _ _ _ => src,
    insert_implicit_node := fun src _ _ _ => src,
    compile_diagram := fun src => src }

/-- A concrete hook state before a drag. -/
def wState : HookState :=
  { code := "start", dragCode := Option.none, pendingCode := Option.none,
    editorContent := "start", dragResult := Option.none, hasUpdated := false,
    lastUpdate := Option.none, compiles := [], emitted := [], mutLog := [],
    geoLog := [], insertLog := [] }

/-- A concrete node-move drag state. -/
def wDrag : DragState :=
  { type := DragType.node, id := "A", groupIndex := Option.none,
    startX := 10, startY := 20, startMouseX := 0, startMouseY := 0,
    parentOffsetX := 3, parentOffsetY := 4, currentX := 10, currentY := 20,
    startW := some 120, startH := some 80,
    initialX := Option.none, initialY := Option.none,
    newX := Option.none, newY := Option.none,
    newW := Option.none, newH := Option.none }

/-- A concrete implicit node. -/
def wNode : DiagramNode :=
  { id := "B", bounds := ⟨5, 7, 120, 80⟩, parent_offset := (0, 0), explicit := false }

/-- A concrete explicitly declared node. -/
def wNodeE : DiagramNode :=
  { id := "A", bounds := ⟨5, 7, 120, 80⟩, parent_offset := (0, 0), explicit := true }

/-! ## Helper lemmas -/

theorem throttleInv_move (s : ThrottleState) (t : ℤ) (h : ThrottleInv s) :
    ThrottleInv (stepPointer s (PointerEv.move t)) := by
  obtain ⟨hd, hf, hc, hl⟩ := h
  by_cases hcond : DRAG_THROTTLE_MS ≤ t - s.lastLayoutUpdate
  · have hstep : stepPointer s (PointerEv.move t) =
        { s with lastLayoutUpdate := t,
                 throttledUpdates := s.throttledUpdates ++ [t] } := by
      simp [stepPointer, hd, hcond]
    rw [hstep]
    refine ⟨hd, hf, ?_, ?_⟩
    · rw [List.chain'_append]
      refine ⟨hc, List.chain'_singleton t, ?_⟩
      intro x hx y hy
      simp only [List.head?_cons, Option.mem_def, Option.some.injEq] at hy
      have hx' := hl x hx
      subst hy
      rw [hx']
      exact hcond
    · intro u hu
      rw [List.getLast?_concat] at hu
      simp only [Option.mem_def, Option.some.injEq] at hu
      subst hu
      rfl
  · have hstep : stepPointer s (PointerEv.move t) = s := by
      simp [stepPointer, hd, hcond]
    rw [hstep]
    exact ⟨hd, hf, hc, hl⟩

theorem throttleInv_fold (ts : List ℤ) (s : ThrottleState) (h : ThrottleInv s) :
    ThrottleInv (List.foldl stepPointer s (ts.map PointerEv.move)) := by
  induction ts generalizing s with
  | nil => simpa using h
  | cons a as ih =>
      simpa using ih _ (throttleInv_move s a h)

/-! ## Claims -/

/-- C2: the arrows table of the Monarch tokenizer declares `---` an arrow
token, yet the operator rule's regular expression does not recognize it: its
dash-only alternative is spelled with four dashes, so the rule matches
nothing at the start of `---`.  This contradicts the tokenizer's own token
table (and its longest-match-first comment), so the regular expression is a
slip: the code evaluates as follows at the failing input. -/
theorem operatorRule_misses_triple_dash :
    "---" ∈ arrows ∧ matchOperatorRule "---" = Option.none := by
  refine ⟨?_, ?_⟩
  · simp [arrows]
  · rfl

/-- C3 (counterexample): before `initArrowRegistry` has run, `getArrowRegistry`
throws (`Except.error`) instead of returning a value, and every accessor
built on it propagates the throw. -/
theorem getArrowRegistry_uninitialized_error :
    getArrowRegistry Option.none =
      Except.error "Arrow registry not initialized. Call initArrowRegistry first." ∧
    exceptOk (getArrowByName Option.none "assoc_right") = false ∧
    exceptOk (getArrowByToken Option.none "-->") = false ∧
    exceptOk (getArrowTokens Option.none) = false ∧
    exceptOk (isDashed Option.none "assoc_right") = false ∧
    exceptOk (isLeftArrow Option.none "assoc_left") = false ∧
    exceptOk (getBaseArrowName Option.none "assoc_right") = false :=
  ⟨rfl, rfl, rfl, rfl, rfl, rfl, rfl⟩

/-- C3 (amended): once the registry has been initialized, none of the arrow
accessors throws, for any registry contents and any argument. -/
theorem arrow_accessors_ok_of_initialized :
    ∀ (r : List ArrowEntry) (n t : String),
      exceptOk (getArrowRegistry (initArrowRegistry r)) = true ∧
      exceptOk (getArrowByName (initArrowRegistry r) n) = true ∧
      exceptOk (getArrowByToken (initArrowRegistry r) t) = true ∧
      exceptOk (getArrowTokens (initArrowRegistry r)) = true ∧
      exceptOk (isDashed (initArrowRegistry r) n) = true ∧
      exceptOk (isLeftArrow (initArrowRegistry r) n) = true ∧
      exceptOk (getBaseArrowName (initArrowRegistry r) n) = true :=
  fun _ _ _ => ⟨rfl, rfl, rfl, rfl, rfl, rfl, rfl⟩

/-- C7: for two arrow entries identical except for `is_left`, `getEdgeMarkers`
produces mirrored output: the left variant's `markerStart` is the right
variant's `markerEnd` and vice versa, for every head style (diamond or not). -/
theorem getEdgeMarkers_left_right_mirror :
    ∀ (e : ArrowEntry),
      (getEdgeMarkersEntry { e with is_left := true }).1 =
        (getEdgeMarkersEntry { e with is_left := false }).2 ∧
      (getEdgeMarkersEntry { e with is_left := true }).2 =
        (getEdgeMarkersEntry { e with is_left := false }).1 := by
  intro e
  rcases e with ⟨tok, cn, nm, lb, dt, ls, hs, ts, dir, il⟩
  cases hs <;> simp [getEdgeMarkersEntry]

/-- C9 (counterexample): `getArrowTokens` does not sort: for a registry whose
tokens are not already longest-first, the returned list is not longest-first
either — here the 2-character token precedes the 3-character one. -/
theorem getArrowTokens_not_sorted_cex :
    getArrowTokens (initArrowRegistry [tokenEntry "..", tokenEntry "-->"]) =
      Except.ok ["..", "-->"] ∧
    (".." : String).length < ("-->" : String).length :=
  ⟨rfl, by decide⟩

/-- C9 (amended): `getArrowTokens` returns the tokens in registry order with
no sorting of its own; the result is longest-first exactly when the registry
already lists its tokens in non-increasing length order (as the canonical
arrow table does). -/
theorem getArrowTokens_registry_order :
    ∀ (r : List ArrowEntry),
      getArrowTokens (initArrowRegistry r) = Except.ok (r.map (fun e => e.token)) ∧
      (List.Pairwise (fun a b => b.token.length ≤ a.token.length) r →
        List.Pairwise (fun a b => b.length ≤ a.length) (r.map (fun e => e.token))) := by
  intro r
  refine ⟨rfl, fun h => ?_⟩
  exact List.pairwise_map.mpr h

/-- C9 (witness): the canonical registry is listed longest-first, so the
returned token list is longest-first. -/
theorem getArrowTokens_registry_order_witness :
    List.Pairwise (fun a b => b.length ≤ a.length)
      (canonicalRegistry.map (fun e => e.token)) :=
  (getArrowTokens_registry_order canonicalRegistry).2 (by decide)

/-- C8: during a single drag, any two successive throttled pointer-move
updates are at least `DRAG_THROTTLE_MS = 10` milliseconds apart, and mouse
release performs exactly one additional final update. -/
theorem dragThrottle_spacing_and_final :
    DRAG_THROTTLE_MS = 10 ∧
    ∀ (ts : List ℤ),
      List.Chain' (fun a b => DRAG_THROTTLE_MS ≤ b - a)
        ((List.foldl stepPointer initThrottle
          (ts.map PointerEv.move ++ [PointerEv.up])).throttledUpdates) ∧
      (List.foldl stepPointer initThrottle
        (ts.map PointerEv.move ++ [PointerEv.up])).finalUpdates = 1 := by
  refine ⟨rfl, fun ts => ?_⟩
  rw [List.foldl_append, List.foldl_cons, List.foldl_nil]
  obtain ⟨hd, hf, hc, _⟩ :=
    throttleInv_fold ts initThrottle
      ⟨rfl, rfl, List.chain'_nil, by intro u hu; simp [initThrottle] at hu⟩
  constructor
  · simpa [stepPointer, hd] using hc
  · simp [stepPointer, hd, hf]

theorem commit_geoLog (core : CoreFns) (f e : Bool) (src new : String) (s : HookState) :
    (commit core f e src new s).geoLog = s.geoLog := by
  unfold commit
  split_ifs <;> rfl

theorem commit_mutLog (core : CoreFns) (f e : Bool) (src new : String) (s : HookState) :
    (commit core f e src new s).mutLog = s.mutLog := by
  unfold commit
  split_ifs <;> rfl

theorem commit_sourceOf_cases (core : CoreFns) (f e : Bool) (src new : String)
    (s : HookState) :
    sourceOf (commit core f e src new s) = sourceOf s ∨
    sourceOf (commit core f e src new s) = new := by
  unfold commit sourceOf
  split_ifs <;> simp

theorem dragAfterMoves_fields (d : DragState) (moves : List (ℚ × ℚ × ℚ)) :
    (dragAfterMoves d moves).type = d.type ∧
    (dragAfterMoves d moves).id = d.id ∧
    (dragAfterMoves d moves).parentOffsetX = d.parentOffsetX ∧
    (dragAfterMoves d moves).parentOffsetY = d.parentOffsetY ∧
    (dragAfterMoves d moves).startW = d.startW ∧
    (dragAfterMoves d moves).startH = d.startH := by
  induction moves generalizing d with
  | nil => simp [dragAfterMoves]
  | cons m ms ih =>
      have h := ih (moveDragState d m.1 m.2.1 m.2.2)
      simpa [dragAfterMoves, moveDragState] using h

theorem geoInv_commit (core : CoreFns) (m : String) (base : List GeoCall)
    (f e : Bool) (src new : String) (s : HookState)
    (hs : GeoInv core m base s) (hnew : Derived core m new) :
    GeoInv core m base (commit core f e src new s) := by
  obtain ⟨hsrc, hlog⟩ := hs
  constructor
  · rcases commit_sourceOf_cases core f e src new s with h | h
    · rw [h]; exact hsrc
    · rw [h]; exact hnew
  · intro c hc
    rw [commit_geoLog] at hc
    exact hlog c hc

theorem geoInv_update (core : CoreFns) (m : String) (base : List GeoCall)
    (u : DragState) (isFinal hasEditor : Bool) (s : HookState)
    (h : GeoInv core m base s) :
    GeoInv core m base (updateLayoutGeo core u isFinal hasEditor s) := by
  obtain ⟨hsrc, hlog⟩ := h
  have hlog' : ∀ entry : GeoCall, entry.source = sourceOf s →
      ∀ c ∈ s.geoLog ++ [entry], c ∈ base ∨ Derived core m c.source := by
    intro entry hentry c hc
    rcases List.mem_append.mp hc with hold | hnew
    · exact hlog c hold
    · rw [List.mem_singleton.mp hnew, hentry]
      exact Or.inr hsrc
  simp only [updateLayoutGeo]
  split_ifs with ht hr
  · exact geoInv_commit core m base isFinal hasEditor _ _ _
      ⟨hsrc, hlog' _ rfl⟩ (Derived.geo _ _ _ _ _ _ hsrc)
  · exact geoInv_commit core m base isFinal hasEditor _ _ _
      ⟨hsrc, hlog' _ rfl⟩ (Derived.geo _ _ _ _ _ _ hsrc)
  · refine geoInv_commit core m base isFinal hasEditor _ _ _
      ⟨hsrc, ?_⟩ (Derived.groupPos _ _ _ _ _ hsrc)
    intro c hc
    exact hlog c hc

theorem geoInv_apply (core : CoreFns) (m : String) (base : List GeoCall)
    (hasEditor : Bool) (us : List (DragState × Bool)) (s : HookState)
    (h : GeoInv core m base s) :
    GeoInv core m base (applyUpdatesGeo core hasEditor s us) := by
  induction us generalizing s with
  | nil => simpa [applyUpdatesGeo] using h
  | cons u us ih =>
      have h1 := geoInv_update core m base u.1 u.2 hasEditor s h
      simpa [applyUpdatesGeo] using ih _ h1

/-- C1 (counterexample): a pure-move node drag started on a declared node of
width 120 and height 80 makes its `update_class_geometry` call with `w = 120`
and `h = 80` — the node's current dimensions, not the `-1` sentinel. -/
theorem nodeDrag_geometry_args_not_sentinel_cex :
    ((updateLayoutGeo wCore (startNodeDragGeo wCore wNodeE 0 0 wState).2 false true
        (startNodeDragGeo wCore wNodeE 0 0 wState).1).geoLog.map (fun c => (c.w, c.h)))
      = [((120 : ℤ), (80 : ℤ))] ∧
    ¬ (((120 : ℤ), (80 : ℤ)) = ((-1 : ℤ), (-1 : ℤ))) := by
  refine ⟨?_, by decide⟩
  simp only [updateLayoutGeo, startNodeDragGeo, wCore, wNodeE, wState, sourceOf]
  norm_num [commit_geoLog, round_eq]

/-- C1 (amended): for a pure-move node drag (drag state built by
`startNodeDrag`, evolved by any sequence of mouse moves), every
`update_class_geometry` call the first revision's update loop makes passes
the rounded width and height captured from the node's bounds at drag start
for `w` and `h` (together with the rounded local position) — it never passes
the `-1` leave-unchanged sentinel. -/
theorem nodeDrag_geometry_args_eq_start_bounds :
    ∀ (core : CoreFns) (node : DiagramNode) (mX mY : ℚ) (s₀ : HookState)
      (moves : List (ℚ × ℚ × ℚ)) (isFinal hasEditor : Bool) (s : HookState),
      (updateLayoutGeo core (dragAfterMoves (startNodeDragGeo core node mX mY s₀).2 moves)
          isFinal hasEditor s).geoLog =
        s.geoLog ++ [⟨sourceOf s, node.id,
          round ((dragAfterMoves (startNodeDragGeo core node mX mY s₀).2 moves).currentX
            - node.parent_offset.1),
          round ((dragAfterMoves (startNodeDragGeo core node mX mY s₀).2 moves).currentY
            - node.parent_offset.2),
          round node.bounds.w, round node.bounds.h⟩] := by
  intro core node mX mY s₀ moves isFinal hasEditor s
  obtain ⟨ht, hid, hpx, hpy, hw, hh⟩ :=
    dragAfterMoves_fields (startNodeDragGeo core node mX mY s₀).2 moves
  have ht' : (dragAfterMoves (startNodeDragGeo core node mX mY s₀).2 moves).type
      = DragType.node := by
    rw [ht]; simp [startNodeDragGeo]
  have hid' : (dragAfterMoves (startNodeDragGeo core node mX mY s₀).2 moves).id
      = node.id := by
    rw [hid]; simp [startNodeDragGeo]
  have hpx' : (dragAfterMoves (startNodeDragGeo core node mX mY s₀).2 moves).parentOffsetX
      = node.parent_offset.1 := by
    rw [hpx]; simp [startNodeDragGeo]
  have hpy' : (dragAfterMoves (startNodeDragGeo core node mX mY s₀).2 moves).parentOffsetY
      = node.parent_offset.2 := by
    rw [hpy]; simp [startNodeDragGeo]
  have hw' : (dragAfterMoves (startNodeDragGeo core node mX mY s₀).2 moves).startW
      = some node.bounds.w := by
    rw [hw]; simp [startNodeDragGeo]
  have hh' : (dragAfterMoves (startNodeDragGeo core node mX mY s₀).2 moves).startH
      = some node.bounds.h := by
    rw [hh]; simp [startNodeDragGeo]
  simp only [updateLayoutGeo, ht', if_pos, hid', hpx', hpy', hw', hh']
  simp [commit_geoLog, sourceOf]

/-- C4: when a drag-loop mutation call returns a string equal to the source
it was given, the update commits nothing: the drag code buffer, the editor
content, the compiled drag layout result and the host code state stay
unchanged, no compile is performed, nothing is emitted to the host, and the
update flag stays down. -/
theorem updateLayout_noop_of_unchanged (core : CoreFns) (d : DragState)
    (isFinal hasEditor : Bool) (s : HookState)
    (h : (if d.type = DragType.node then
            core.update_class_pos (sourceOf s) d.id
              (d.currentX - d.parentOffsetX) (d.currentY - d.parentOffsetY)
          else
            core.update_group_pos (sourceOf s) d.id (d.groupIndex.getD 0)
              (d.currentX - d.parentOffsetX) (d.currentY - d.parentOffsetY))
         = sourceOf s) :
    (updateLayout core d isFinal hasEditor s).dragCode = s.dragCode ∧
    (updateLayout core d isFinal hasEditor s).editorContent = s.editorContent ∧
    (updateLayout core d isFinal hasEditor s).dragResult = s.dragResult ∧
    (updateLayout core d isFinal hasEditor s).code = s.code ∧
    (updateLayout core d isFinal hasEditor s).compiles = s.compiles ∧
    (updateLayout core d isFinal hasEditor s).emitted = s.emitted ∧
    (updateLayout core d isFinal hasEditor s).hasUpdated = s.hasUpdated := by
  by_cases hskip : s.lastUpdate
      = some (d.currentX - d.parentOffsetX, d.currentY - d.parentOffsetY)
  · simp [updateLayout, hskip]
  · by_cases ht : d.type = DragType.node
    · have h' : core.update_class_pos (sourceOf s) d.id
          (d.currentX - d.parentOffsetX) (d.currentY - d.parentOffsetY) = sourceOf s := by
        simpa [ht] using h
      simp [updateLayout, commit, hskip, ht, sourceOf] at h' ⊢
      simp [h']
    · have h' : core.update_group_pos (sourceOf s) d.id (d.groupIndex.getD 0)
          (d.currentX - d.parentOffsetX) (d.currentY - d.parentOffsetY) = sourceOf s := by
        simpa [ht] using h
      simp [updateLayout, commit, hskip, ht, sourceOf] at h' ⊢
      simp [h']

/-- C4 (witness): with core mutation functions that return their source
unchanged, a concrete non-final node update leaves the host code state
unchanged. -/
theorem updateLayout_noop_of_unchanged_witness :
    (if wDrag.type = DragType.node then
       wCoreId.update_class_pos (sourceOf wState) wDrag.id
         (wDrag.currentX - wDrag.parentOffsetX) (wDrag.currentY - wDrag.parentOffsetY)
     else
       wCoreId.update_group_pos (sourceOf wState) wDrag.id (wDrag.groupIndex.getD 0)
         (wDrag.currentX - wDrag.parentOffsetX) (wDrag.currentY - wDrag.parentOffsetY))
      = sourceOf wState ∧
    (updateLayout wCoreId wDrag false true wState).code = wState.code :=
  ⟨rfl, (updateLayout_noop_of_unchanged wCoreId wDrag false true wState rfl).2.2.2.1⟩

/-- C5: a drag started on a node whose explicit flag is false first calls
`insert_implicit_node` with the node's current local position (bounds minus
parent offset) before any position update (the geometry and position logs
are untouched by the drag start), and every `update_class_geometry` call a
subsequent update of that drag makes operates on the materialized source
string returned by `insert_implicit_node` (or on a string derived from it by
the intervening mutations). -/
theorem startNodeDrag_implicit_materializes_first
    (core : CoreFns) (node : DiagramNode) (mX mY : ℚ) (s : HookState)
    (himp : node.explicit = false) :
    (startNodeDragGeo core node mX mY s).1.insertLog =
      s.insertLog ++ [(s.pendingCode.getD s.code, node.id,
        node.bounds.x - node.parent_offset.1, node.bounds.y - node.parent_offset.2)] ∧
    (startNodeDragGeo core node mX mY s).1.geoLog = s.geoLog ∧
    (startNodeDragGeo core node mX mY s).1.mutLog = s.mutLog ∧
    (startNodeDragGeo core node mX mY s).1.dragCode =
      some (core.insert_implicit_node (s.pendingCode.getD s.code) node.id
        (node.bounds.x - node.parent_offset.1) (node.bounds.y - node.parent_offset.2)) ∧
    ∀ (us : List (DragState × Bool)) (hasEditor : Bool),
      ∀ c ∈ (applyUpdatesGeo core hasEditor (startNodeDragGeo core node mX mY s).1 us).geoLog,
        c ∈ s.geoLog ∨
          Derived core (core.insert_implicit_node (s.pendingCode.getD s.code) node.id
            (node.bounds.x - node.parent_offset.1) (node.bounds.y - node.parent_offset.2))
            c.source := by
  have hstart1 : (startNodeDragGeo core node mX mY s).1 =
      { s with hasUpdated := false,
               insertLog := s.insertLog ++ [(s.pendingCode.getD s.code, node.id,
                 node.bounds.x - node.parent_offset.1,
                 node.bounds.y - node.parent_offset.2)],
               dragCode := some (core.insert_implicit_node (s.pendingCode.getD s.code)
                 node.id (node.bounds.x - node.parent_offset.1)
                 (node.bounds.y - node.parent_offset.2)) } := by
    simp [startNodeDragGeo, himp]
  refine ⟨by rw [hstart1], by rw [hstart1], by rw [hstart1], by rw [hstart1], ?_⟩
  intro us hasEditor c hc
  have hinv : GeoInv core
      (core.insert_implicit_node (s.pendingCode.getD s.code) node.id
        (node.bounds.x - node.parent_offset.1) (node.bounds.y - node.parent_offset.2))
      s.geoLog
      (startNodeDragGeo core node mX mY s).1 := by
    constructor
    · rw [hstart1]
      exact Derived.base
    · intro c' hc'
      rw [hstart1] at hc'
      exact Or.inl hc'
  exact (geoInv_apply core _ s.geoLog hasEditor us _ hinv).2 c hc

/-- C5 (witness): a concrete implicit node drag on concrete core functions
seeds the drag buffer with the materialized source. -/
theorem startNodeDrag_implicit_materializes_first_witness :
    wNode.explicit = false ∧
    (startNodeDragGeo wCore wNode 0 0 wState).1.dragCode =
      some (wCore.insert_implicit_node (wState.pendingCode.getD wState.code) wNode.id
        (wNode.bounds.x - wNode.parent_offset.1) (wNode.bounds.y - wNode.parent_offset.2)) :=
  ⟨rfl, (startNodeDrag_implicit_materializes_first wCore wNode 0 0 wState rfl).2.2.2.1⟩

/-- C6: every position a (second-revision) drag update commits is the
world-to-local conversion of the rounded drag position: after a mouse move,
an update either skips or records a mutation call whose coordinates are
exactly `round(startX + (clientX - startMouseX)/scale) - parentOffsetX` (and
likewise for y); and `startGroupDrag` fixes the parent offset of root groups
at zero, so group updates commit the rounded position itself. -/
theorem updateLayout_commits_local_coords :
    (∀ (core : CoreFns) (d : DragState) (clientX clientY scale : ℚ)
       (isFinal hasEditor : Bool) (s : HookState), 0 < scale →
       (updateLayout core (moveDragState d clientX clientY scale) isFinal hasEditor s).mutLog
           = s.mutLog ∨
       (updateLayout core (moveDragState d clientX clientY scale) isFinal hasEditor s).mutLog
           = s.mutLog ++ [(sourceOf s,
         ((round (d.startX + (clientX - d.startMouseX) / scale) : ℤ) : ℚ) - d.parentOffsetX,
         ((round (d.startY + (clientY - d.startMouseY) / scale) : ℤ) : ℚ) - d.parentOffsetY)]) ∧
    (∀ (core : CoreFns) (group : DiagramGroup) (index : ℕ) (mX mY : ℚ) (s : HookState),
       (startGroupDrag core group index mX mY s).2.parentOffsetX = 0 ∧
       (startGroupDrag core group index mX mY s).2.parentOffsetY = 0) := by
  constructor
  · intro core d clientX clientY scale isFinal hasEditor s _
    by_cases hskip : s.lastUpdate = some
        ((moveDragState d clientX clientY scale).currentX
           - (moveDragState d clientX clientY scale).parentOffsetX,
         (moveDragState d clientX clientY scale).currentY
           - (moveDragState d clientX clientY scale).parentOffsetY)
    · left
      simp [updateLayout, hskip]
    · right
      simp only [moveDragState] at hskip
      simp [updateLayout, hskip, moveDragState, commit_mutLog, sourceOf]
  · intro core group index mX mY s
    exact ⟨rfl, rfl⟩

/-- C6 (witness): a concrete mouse move at scale 1 commits the rounded
position minus the parent offset. -/
theorem updateLayout_commits_local_coords_witness :
    (0 : ℚ) < 1 ∧
    ((updateLayout wCore (moveDragState wDrag 13 7 1) false true wState).mutLog
        = wState.mutLog ∨
     (updateLayout wCore (moveDragState wDrag 13 7 1) false true wState).mutLog
        = wState.mutLog ++ [(sourceOf wState,
       ((round (wDrag.startX + (13 - wDrag.startMouseX) / 1) : ℤ) : ℚ) - wDrag.parentOffsetX,
       ((round (wDrag.startY + (7 - wDrag.startMouseY) / 1) : ℤ) : ℚ) - wDrag.parentOffsetY)]) :=
  ⟨by norm_num,
   updateLayout_commits_local_coords.1 wCore wDrag 13 7 1 false true wState (by norm_num)⟩

theorem rectT_spec (hW hH dx dy : ℚ) (hhw : 0 < hW) (hhh : 0 < hH)
    (hne : ¬ (dx = 0 ∧ dy = 0)) :
    ∃ t, rectT hW hH dx dy = some t ∧ 0 < t ∧ |dx| * t ≤ hW ∧ |dy| * t ≤ hH ∧
      (|dx| * t = hW ∨ |dy| * t = hH) := by
  by_cases hx : dx = 0
  · have hy : dy ≠ 0 := fun h => hne ⟨hx, h⟩
    have hb : 0 < hH / |dy| := div_pos hhh (abs_pos.mpr hy)
    have hbe : |dy| * (hH / |dy|) = hH := by
      rw [mul_comm, div_mul_cancel₀ _ (abs_ne_zero.mpr hy)]
    refine ⟨hH / |dy|, ?_, hb, ?_, le_of_eq hbe, Or.inr hbe⟩
    · subst hx
      rcases lt_or_gt_of_ne hy with h | h <;>
        simp [rectT, minOpt, lt_irrefl, h, not_lt.mpr h.le]
    · rw [hx, abs_zero, zero_mul]
      exact hhw.le
  · by_cases hy : dy = 0
    · have ha : 0 < hW / |dx| := div_pos hhw (abs_pos.mpr hx)
      have hae : |dx| * (hW / |dx|) = hW := by
        rw [mul_comm, div_mul_cancel₀ _ (abs_ne_zero.mpr hx)]
      refine ⟨hW / |dx|, ?_, ha, le_of_eq hae, ?_, Or.inl hae⟩
      · subst hy
        rcases lt_or_gt_of_ne hx with h | h <;>
          simp [rectT, minOpt, lt_irrefl, h, not_lt.mpr h.le]
      · rw [hy, abs_zero, zero_mul]
        exact hhh.le
    · have ha : 0 < hW / |dx| := div_pos hhw (abs_pos.mpr hx)
      have hb : 0 < hH / |dy| := div_pos hhh (abs_pos.mpr hy)
      have hae : |dx| * (hW / |dx|) = hW := by
        rw [mul_comm, div_mul_cancel₀ _ (abs_ne_zero.mpr hx)]
      have hbe : |dy| * (hH / |dy|) = hH := by
        rw [mul_comm, div_mul_cancel₀ _ (abs_ne_zero.mpr hy)]
      refine ⟨min (hW / |dx|) (hH / |dy|), ?_, lt_min ha hb, ?_, ?_, ?_⟩
      · rcases lt_or_gt_of_ne hx with h1 | h1 <;> rcases lt_or_gt_of_ne hy with h2 | h2 <;>
          simp [rectT, minOpt, h1, h2, not_lt.mpr h1.le, not_lt.mpr h2.le]
      · calc |dx| * min (hW / |dx|) (hH / |dy|)
            ≤ |dx| * (hW / |dx|) :=
              mul_le_mul_of_nonneg_left (min_le_left _ _) (abs_nonneg dx)
          _ = hW := hae
      · calc |dy| * min (hW / |dx|) (hH / |dy|)
            ≤ |dy| * (hH / |dy|) :=
              mul_le_mul_of_nonneg_left (min_le_right _ _) (abs_nonneg dy)
          _ = hH := hbe
      · rcases min_choice (hW / |dx|) (hH / |dy|) with h | h
        · left
          rw [h, hae]
        · right
          rw [h, hbe]

/-- C10: for a positive-size rectangle (offset 0), a target different from
the center yields a point of the rectangle's perimeter: both coordinates of
the returned point are within half-width/half-height of the center and at
least one is exactly on the boundary; a target equal to the center yields
the center. -/
theorem getEdgePoint_rect_on_perimeter (b : Bounds) (tx ty : ℚ)
    (hw : 0 < b.w) (hh : 0 < b.h) :
    (¬ (tx = b.x + b.w / 2 ∧ ty = b.y + b.h / 2) →
      |(getEdgePointRect b tx ty).1 - (b.x + b.w / 2)| ≤ b.w / 2 ∧
      |(getEdgePointRect b tx ty).2 - (b.y + b.h / 2)| ≤ b.h / 2 ∧
      (|(getEdgePointRect b tx ty).1 - (b.x + b.w / 2)| = b.w / 2 ∨
       |(getEdgePointRect b tx ty).2 - (b.y + b.h / 2)| = b.h / 2)) ∧
    ((tx = b.x + b.w / 2 ∧ ty = b.y + b.h / 2) →
      getEdgePointRect b tx ty = (b.x + b.w / 2, b.y + b.h / 2)) := by
  constructor
  · intro hne
    have hne' : ¬ (tx - (b.x + b.w / 2) = 0 ∧ ty - (b.y + b.h / 2) = 0) := by
      intro hz
      exact hne ⟨sub_eq_zero.mp hz.1, sub_eq_zero.mp hz.2⟩
    obtain ⟨t, htEq, htPos, hxB, hyB, hEq⟩ :=
      rectT_spec (b.w / 2) (b.h / 2) (tx - (b.x + b.w / 2)) (ty - (b.y + b.h / 2))
        (half_pos hw) (half_pos hh) hne'
    have hval : getEdgePointRect b tx ty =
        ((b.x + b.w / 2) + (tx - (b.x + b.w / 2)) * t,
         (b.y + b.h / 2) + (ty - (b.y + b.h / 2)) * t) := by
      simp only [getEdgePointRect]
      rw [if_neg hne', htEq]
    rw [hval]
    simp only [add_sub_cancel_left]
    rw [abs_mul, abs_mul, abs_of_pos htPos]
    exact ⟨hxB, hyB, hEq⟩
  · intro hc
    have hz : tx - (b.x + b.w / 2) = 0 ∧ ty - (b.y + b.h / 2) = 0 :=
      ⟨sub_eq_zero.mpr hc.1, sub_eq_zero.mpr hc.2⟩
    simp only [getEdgePointRect]
    rw [if_pos hz]

/-- C10 (witness): for the rectangle at origin with width 4 and height 2 and
target (5, 3), the returned point is on the perimeter. -/
theorem getEdgePoint_rect_on_perimeter_witness :
    |(getEdgePointRect ⟨0, 0, 4, 2⟩ 5 3).1 - ((0 : ℚ) + 4 / 2)| ≤ 4 / 2 ∧
    |(getEdgePointRect ⟨0, 0, 4, 2⟩ 5 3).2 - ((0 : ℚ) + 2 / 2)| ≤ 2 / 2 ∧
    (|(getEdgePointRect ⟨0, 0, 4, 2⟩ 5 3).1 - ((0 : ℚ) + 4 / 2)| = 4 / 2 ∨
     |(getEdgePointRect ⟨0, 0, 4, 2⟩ 5 3).2 - ((0 : ℚ) + 2 / 2)| = 2 / 2) :=
  (getEdgePoint_rect_on_perimeter ⟨0, 0, 4, 2⟩ 5 3 (by norm_num) (by norm_num)).1
    (by norm_num)

end Trident
